import Mathlib

/-!
Shallow embedding of the nozzle-contour and wedge-mesh generators of the
OpenFOAM nozzle case generator (`src/base/nozzle/nozzle.py`,
`src/base/nozzle/parabolic_nozzle.py`,
`src/base/templates/openfoam/system/block_mesh.py`).

Machine floats are modelled as exact reals.  `np.linspace`, the contour
formulas, and the mesh index bookkeeping are translated function by
function from the source.  The final string serialization of the mesh
dictionary (one text line per vertex / block / face) is out of scope;
the mesh is modelled as the structured data the serializer prints.
-/

/-- `np.linspace a b n`: `n` evenly spaced samples from `a` to `b`,
endpoints included.  For `n = 1` numpy returns `[a]`; the model's
division by zero (`(1 - 1 : Nat) = 0`, real division by `0` is `0`)
yields the same value. -/
noncomputable def linspace (a b : ℝ) (n : ℕ) : List ℝ :=
  (List.range n).map (fun i : ℕ => a + (i : ℝ) * ((b - a) / ((n - 1 : ℕ) : ℝ)))

/-- `SectionParameters` from `nozzle.py`: axial bounds, radii at the
bounds, number of sample points. -/
structure SectionParameters where
  start_x : ℝ
  end_x : ℝ
  start_r : ℝ
  end_r : ℝ
  n_points : ℕ

/-- `LinearSection.get_radius_function` from `nozzle.py`:
`r(x) = start_r + slope * (x - start_x)` with
`slope = (end_r - start_r) / (end_x - start_x)`. -/
noncomputable def linear_radius (sp : SectionParameters) : ℝ → ℝ :=
  fun x =>
    sp.start_r + (sp.end_r - sp.start_r) / (sp.end_x - sp.start_x) * (x - sp.start_x)

/-- `CircularArcSection.get_radius_function` from `nozzle.py`.  With
`dx = end_x - start_x`, `dr = end_r - start_r`, `t = (x - start_x)/dx`,
`x_local = t * dx` and `sign = 1` for convex (`-1` for concave), the
returned function is
`start_r + t*dr + sign*sqrt(R_c^2 - (x_local - dx/2)^2)
         - sign*sqrt(R_c^2 - (dx/2)^2)`.
(The `chord` and sagitta `h` computed in the source are not used by the
returned function.) -/
noncomputable def circular_arc_radius (sp : SectionParameters) (R_c : ℝ)
    (convex : Bool) : ℝ → ℝ :=
  fun x =>
    let dx := sp.end_x - sp.start_x
    let dr := sp.end_r - sp.start_r
    let sign : ℝ := if convex then 1 else -1
    let t := (x - sp.start_x) / dx
    let x_local := t * dx
    sp.start_r + t * dr + sign * Real.sqrt (R_c ^ 2 - (x_local - dx / 2) ^ 2)
      - sign * Real.sqrt (R_c ^ 2 - (dx / 2) ^ 2)

/-- `HermiteSection.get_radius_function` from `nozzle.py`: cubic Hermite
blend of the endpoint radii and the scaled end slopes, with
`t = (x - start_x) / (end_x - start_x)` and basis polynomials
`h00 = 2t^3-3t^2+1`, `h10 = t^3-2t^2+t`, `h01 = -2t^3+3t^2`,
`h11 = t^3-t^2`. -/
noncomputable def hermite_radius (sp : SectionParameters)
    (start_slope end_slope : ℝ) : ℝ → ℝ :=
  fun x =>
    (2 * ((x - sp.start_x) / (sp.end_x - sp.start_x)) ^ 3
        - 3 * ((x - sp.start_x) / (sp.end_x - sp.start_x)) ^ 2 + 1) * sp.start_r
      + (((x - sp.start_x) / (sp.end_x - sp.start_x)) ^ 3
        - 2 * ((x - sp.start_x) / (sp.end_x - sp.start_x)) ^ 2
        + (x - sp.start_x) / (sp.end_x - sp.start_x))
          * (sp.end_x - sp.start_x) * start_slope
      + ((-2) * ((x - sp.start_x) / (sp.end_x - sp.start_x)) ^ 3
        + 3 * ((x - sp.start_x) / (sp.end_x - sp.start_x)) ^ 2) * sp.end_r
      + (((x - sp.start_x) / (sp.end_x - sp.start_x)) ^ 3
        - ((x - sp.start_x) / (sp.end_x - sp.start_x)) ^ 2)
          * (sp.end_x - sp.start_x) * end_slope

/-- `ParabolicNozzleParams` from `parabolic_nozzle.py`. -/
structure ParabolicNozzleParams where
  throat_radius : ℝ
  exit_radius : ℝ
  chamber_radius : ℝ
  convergent_power : ℝ
  divergent_power : ℝ

/-- `self.L_convergent = 1.5 * params.chamber_radius`. -/
noncomputable def L_convergent (p : ParabolicNozzleParams) : ℝ :=
  1.5 * p.chamber_radius

/-- `self.L_divergent = 0.8 * (exit_radius - throat_radius) / tan(deg2rad 15)`;
`np.deg2rad 15 = 15 * π / 180 = π / 12`. -/
noncomputable def L_divergent (p : ParabolicNozzleParams) : ℝ :=
  0.8 * (p.exit_radius - p.throat_radius) / Real.tan (Real.pi / 12)

/-- Radius formula of `ParabolicNozzle._convergent_section`:
`t = (x + L_convergent) / L_convergent`,
`r = chamber_radius - (chamber_radius - throat_radius) * t ** convergent_power`
(real-exponent power, modelled by `Real.rpow`). -/
noncomputable def convergent_radius (p : ParabolicNozzleParams) (x : ℝ) : ℝ :=
  p.chamber_radius - (p.chamber_radius - p.throat_radius)
    * ((x + L_convergent p) / L_convergent p) ^ p.convergent_power

/-- `ParabolicNozzle._convergent_section`: `x = linspace(-L_convergent, 0,
n_points)` with the parabolic radius at each sample. -/
noncomputable def convergent_section (p : ParabolicNozzleParams) (n : ℕ) :
    List ℝ × List ℝ :=
  let x := linspace (-(L_convergent p)) 0 n
  (x, x.map (convergent_radius p))

/-- Radius formula of `ParabolicNozzle._divergent_section`:
`t = x / L_divergent`,
`r = throat_radius + (exit_radius - throat_radius) * t ** divergent_power`. -/
noncomputable def divergent_radius (p : ParabolicNozzleParams) (x : ℝ) : ℝ :=
  p.throat_radius + (p.exit_radius - p.throat_radius)
    * (x / L_divergent p) ^ p.divergent_power

/-- `ParabolicNozzle._divergent_section`: `x = linspace(0, L_divergent,
n_points)` with the parabolic radius at each sample. -/
noncomputable def divergent_section (p : ParabolicNozzleParams) (n : ℕ) :
    List ℝ × List ℝ :=
  let x := linspace 0 (L_divergent p) n
  (x, x.map (divergent_radius p))

/-- `n_conv = int(n_points * 0.4)` from `generate_contour`.  In exact
arithmetic `int (0.4 * n) = ⌊2n/5⌋`, which is `2 * n / 5` in `Nat`
division (the float rounding of `n * 0.4` never crosses an integer for
any realistic `n`, since `float 0.4 = 0.4 * (1 + 2⁻⁵⁴)`). -/
def n_conv (n : ℕ) : ℕ := 2 * n / 5

/-- `ParabolicNozzle.generate_contour`: split `n_points` as
`n_conv = int(0.4 n)` / `n_div = n - n_conv`, generate both sections and
concatenate, dropping the first point of the divergent branch
(`x_div[1:]`, `r_div[1:]`, i.e. `List.tail`). -/
noncomputable def generate_contour (p : ParabolicNozzleParams) (n_points : ℕ) :
    List ℝ × List ℝ :=
  let nc := n_conv n_points
  let conv := convergent_section p nc
  let dive := divergent_section p (n_points - nc)
  (conv.1 ++ dive.1.tail, conv.2 ++ dive.2.tail)

/-- `ParabolicNozzle.get_outer_wall` simply forwards to
`generate_contour`. -/
noncomputable def get_outer_wall (p : ParabolicNozzleParams) (n_points : ℕ) :
    List ℝ × List ℝ :=
  generate_contour p n_points

/-- Loop body of `_wedge_points` from `block_mesh.py`, written as
structural recursion over the `zip x r` station list: for each station
four vertices are appended (axis then wall on plane 0, axis then wall on
plane 1) and the four parallel index arrays record the positions at which
they were appended (`k` carries `len(verts)` at entry to the iteration).
Returns `(verts, idx_axis_p0, idx_wall_p0, idx_axis_p1, idx_wall_p1)`. -/
def wedge_points_aux (c s : ℝ) :
    List (ℝ × ℝ) → ℕ →
      List (ℝ × ℝ × ℝ) × List ℕ × List ℕ × List ℕ × List ℕ
  | [], _ => ([], [], [], [], [])
  | (xi, ri) :: rest, k =>
    let p := wedge_points_aux c s rest (k + 4)
    ((xi, 0, 0) :: (xi, ri * c, -(ri * s)) :: (xi, 0, 0) :: (xi, ri * c, ri * s)
        :: p.1,
      k :: p.2.1, (k + 1) :: p.2.2.1, (k + 2) :: p.2.2.2.1, (k + 3) :: p.2.2.2.2)

/-- `_wedge_points(x, r, theta_half)` from `block_mesh.py`:
`c = cos theta_half`, `s = sin theta_half`, then the loop over
`zip(x, r)` starting with an empty vertex list. -/
noncomputable def wedge_points (x r : List ℝ) (theta_half : ℝ) :
    List (ℝ × ℝ × ℝ) × List ℕ × List ℕ × List ℕ × List ℕ :=
  wedge_points_aux (Real.cos theta_half) (Real.sin theta_half) (x.zip r) 0

/-- Vertex list returned by `_wedge_points`. -/
noncomputable def wp_verts (x r : List ℝ) (theta_half : ℝ) : List (ℝ × ℝ × ℝ) :=
  (wedge_points x r theta_half).1

/-- `idx_axis_p0` returned by `_wedge_points`. -/
noncomputable def wp_a0 (x r : List ℝ) (theta_half : ℝ) : List ℕ :=
  (wedge_points x r theta_half).2.1

/-- `idx_wall_p0` returned by `_wedge_points`. -/
noncomputable def wp_w0 (x r : List ℝ) (theta_half : ℝ) : List ℕ :=
  (wedge_points x r theta_half).2.2.1

/-- `idx_axis_p1` returned by `_wedge_points`. -/
noncomputable def wp_a1 (x r : List ℝ) (theta_half : ℝ) : List ℕ :=
  (wedge_points x r theta_half).2.2.2.1

/-- `idx_wall_p1` returned by `_wedge_points`. -/
noncomputable def wp_w1 (x r : List ℝ) (theta_half : ℝ) : List ℕ :=
  (wedge_points x r theta_half).2.2.2.2

/-- The wedge0 (plane 0) boundary face emitted for axial segment `i` in
`generate_block_mesh_dict`: `(a0[i] a0[i+1] w0[i+1] w0[i])`. -/
noncomputable def wedge0_face (x r : List ℝ) (theta_half : ℝ) (i : ℕ) : List ℕ :=
  [(wp_a0 x r theta_half).getD i 0, (wp_a0 x r theta_half).getD (i + 1) 0,
   (wp_w0 x r theta_half).getD (i + 1) 0, (wp_w0 x r theta_half).getD i 0]

/-- The wedge1 (plane 1) boundary face emitted for axial segment `i` in
`generate_block_mesh_dict`: `(a1[i+1] a1[i] w1[i] w1[i+1])`. -/
noncomputable def wedge1_face (x r : List ℝ) (theta_half : ℝ) (i : ℕ) : List ℕ :=
  [(wp_a1 x r theta_half).getD (i + 1) 0, (wp_a1 x r theta_half).getD i 0,
   (wp_w1 x r theta_half).getD i 0, (wp_w1 x r theta_half).getD (i + 1) 0]

/-- Substitution of each plane-0 vertex index by its plane-1 counterpart:
`_wedge_points` stores the four vertices of a station consecutively as
(axis-p0, wall-p0, axis-p1, wall-p1), so the plane-1 counterpart of a
plane-0 index is always two positions later. -/
def plane_swap (k : ℕ) : ℕ := k + 2

/-- Structured content of the blockMeshDict emitted by
`generate_block_mesh_dict`: the vertex list, the per-segment hex blocks
(8 vertex indices each; the `(1 n_radial 1)` cell counts and the grading
string carry no topology and are omitted), and the five boundary face
groups, each face being 4 vertex indices in emission order. -/
structure BlockMeshData where
  vertices : List (ℝ × ℝ × ℝ)
  blocks : List (List ℕ)
  inletFaces : List (List ℕ)
  outletFaces : List (List ℕ)
  wallFaces : List (List ℕ)
  wedge0Faces : List (List ℕ)
  wedge1Faces : List (List ℕ)

/-- `generate_block_mesh_dict(nozzle, params)` from `block_mesh.py`:
samples the contour with `n_points = n_axial + 1`, builds the wedge
vertices with `theta_half = 0.5 * deg2rad(wedge_angle_deg)`, one hex
block per adjacent station pair, the single inlet face at the first
station (`a0[0] a1[0] w1[0] w0[0]`), the single outlet face at the last
station (`a0[j] w0[j] w1[j] a1[j]`, `j = len(x)-1`), and per axial
segment one wall face `(w0[i] w0[i+1] w1[i+1] w1[i])` plus the two wedge
faces.  When the station list is empty the Python code raises an
`IndexError` at `a0[0]`; this is modelled as `none`. -/
noncomputable def generate_block_mesh_dict (p : ParabolicNozzleParams)
    (wedge_angle_deg : ℝ) (n_axial : ℕ) : Option BlockMeshData :=
  let x := (get_outer_wall p (n_axial + 1)).1
  let r := (get_outer_wall p (n_axial + 1)).2
  let th := 0.5 * (wedge_angle_deg * Real.pi / 180)
  if x.length = 0 then none else some
    { vertices := wp_verts x r th
      blocks := (List.range (x.length - 1)).map (fun i =>
        [(wp_a0 x r th).getD i 0, (wp_a0 x r th).getD (i + 1) 0,
         (wp_w0 x r th).getD (i + 1) 0, (wp_w0 x r th).getD i 0,
         (wp_a1 x r th).getD i 0, (wp_a1 x r th).getD (i + 1) 0,
         (wp_w1 x r th).getD (i + 1) 0, (wp_w1 x r th).getD i 0])
      inletFaces := [[(wp_a0 x r th).getD 0 0, (wp_a1 x r th).getD 0 0,
        (wp_w1 x r th).getD 0 0, (wp_w0 x r th).getD 0 0]]
      outletFaces := [[(wp_a0 x r th).getD (x.length - 1) 0,
        (wp_w0 x r th).getD (x.length - 1) 0,
        (wp_w1 x r th).getD (x.length - 1) 0,
        (wp_a1 x r th).getD (x.length - 1) 0]]
      wallFaces := (List.range (x.length - 1)).map (fun i =>
        [(wp_w0 x r th).getD i 0, (wp_w0 x r th).getD (i + 1) 0,
         (wp_w1 x r th).getD (i + 1) 0, (wp_w1 x r th).getD i 0])
      wedge0Faces := (List.range (x.length - 1)).map (wedge0_face x r th)
      wedge1Faces := (List.range (x.length - 1)).map (wedge1_face x r th) }

/-! ### Basic facts about the embedded building blocks -/

theorem length_linspace (a b : ℝ) (n : ℕ) : (linspace a b n).length = n := by
  simp [linspace]


theorem mem_linspace_bounds (a b : ℝ) (n : ℕ) (hab : a ≤ b) :
    ∀ x ∈ linspace a b n, a ≤ x ∧ x ≤ b := by
  intro x hx
  simp only [linspace, List.mem_map, List.mem_range] at hx
  obtain ⟨i, hi, rfl⟩ := hx
  rcases n with _ | _ | m
  · omega
  · have : i = 0 := by omega
    subst this
    simp [hab]
  · have hden : ((m + 2 - 1 : ℕ) : ℝ) = (m : ℝ) + 1 := by push_cast; ring
    have hstep : 0 ≤ (b - a) / ((m + 2 - 1 : ℕ) : ℝ) := by
      rw [hden]; apply div_nonneg (by linarith) (by positivity)
    constructor
    · have hcast : (0 : ℝ) ≤ (i : ℝ) := by positivity
      nlinarith [mul_nonneg hcast hstep]
    · have hi' : (i : ℝ) ≤ (m : ℝ) + 1 := by
        have hle : i ≤ m + 1 := by omega
        exact_mod_cast hle
      have h1 : (i : ℝ) * ((b - a) / ((m + 2 - 1 : ℕ) : ℝ))
          ≤ ((m : ℝ) + 1) * ((b - a) / ((m + 2 - 1 : ℕ) : ℝ)) :=
        mul_le_mul_of_nonneg_right hi' hstep
      have h2 : ((m : ℝ) + 1) * ((b - a) / ((m + 2 - 1 : ℕ) : ℝ)) = b - a := by
        rw [hden]; field_simp
      linarith

theorem linspace_pairwise (a b : ℝ) (n : ℕ) (hab : a < b) :
    (linspace a b n).Pairwise (· < ·) := by
  rcases n with _ | _ | m
  · simp [linspace]
  · simp [linspace]
  · rw [linspace, List.pairwise_map]
    have hden : ((m + 2 - 1 : ℕ) : ℝ) = (m : ℝ) + 1 := by push_cast; ring
    have hstep : 0 < (b - a) / ((m + 2 - 1 : ℕ) : ℝ) := by
      rw [hden]; apply div_pos (by linarith) (by positivity)
    refine List.Pairwise.imp ?_ (List.pairwise_lt_range _)
    intro i j hij
    have hij' : (i : ℝ) < (j : ℝ) := by exact_mod_cast hij
    have := mul_lt_mul_of_pos_right hij' hstep
    linarith

theorem tan_pi_div_twelve_pos : 0 < Real.tan (Real.pi / 12) := by
  apply Real.tan_pos_of_pos_of_lt_pi_div_two
  · positivity
  · linarith [Real.pi_pos]

theorem L_convergent_pos (p : ParabolicNozzleParams)
    (h : 0 < p.chamber_radius) : 0 < L_convergent p := by
  unfold L_convergent; nlinarith

theorem L_divergent_pos (p : ParabolicNozzleParams)
    (h : p.throat_radius < p.exit_radius) : 0 < L_divergent p := by
  unfold L_divergent
  apply div_pos (by nlinarith) tan_pi_div_twelve_pos

theorem n_div_ge_two (n : ℕ) (hn : 2 ≤ n) : 2 ≤ n - n_conv n := by
  unfold n_conv
  have h5 : 2 * n / 5 * 5 ≤ 2 * n := Nat.div_mul_le_self (2 * n) 5
  omega

/-! ### Facts about `wedge_points` (index bookkeeping and vertex layout) -/

theorem wedge_points_aux_verts_length (c s : ℝ) (l : List (ℝ × ℝ)) (k : ℕ) :
    (wedge_points_aux c s l k).1.length = 4 * l.length := by
  induction l generalizing k with
  | nil => simp [wedge_points_aux]
  | cons q rest ih =>
    obtain ⟨xi, ri⟩ := q
    simp only [wedge_points_aux, List.length_cons, ih]
    ring

theorem wedge_points_aux_idx (c s : ℝ) (l : List (ℝ × ℝ)) (k i : ℕ)
    (hi : i < l.length) :
    (wedge_points_aux c s l k).2.1.getD i 0 = k + 4 * i ∧
    (wedge_points_aux c s l k).2.2.1.getD i 0 = k + 4 * i + 1 ∧
    (wedge_points_aux c s l k).2.2.2.1.getD i 0 = k + 4 * i + 2 ∧
    (wedge_points_aux c s l k).2.2.2.2.getD i 0 = k + 4 * i + 3 := by
  induction l generalizing k i with
  | nil => simp at hi
  | cons q rest ih =>
    obtain ⟨xi, ri⟩ := q
    match i with
    | 0 => simp [wedge_points_aux]
    | (j + 1) =>
      have hj : j < rest.length := by
        simp only [List.length_cons] at hi
        omega
      obtain ⟨h1, h2, h3, h4⟩ := ih (k + 4) j hj
      simp only [wedge_points_aux, List.getD_cons_succ]
      refine ⟨?_, ?_, ?_, ?_⟩
      · rw [h1]; ring
      · rw [h2]; ring
      · rw [h3]; ring
      · rw [h4]; ring

theorem wedge_points_aux_verts_getD (c s : ℝ) (l : List (ℝ × ℝ)) (k i : ℕ)
    (hi : i < l.length) :
    (wedge_points_aux c s l k).1.getD (4 * i) (0, 0, 0)
        = ((l.getD i (0, 0)).1, 0, 0) ∧
    (wedge_points_aux c s l k).1.getD (4 * i + 1) (0, 0, 0)
        = ((l.getD i (0, 0)).1, (l.getD i (0, 0)).2 * c,
            -((l.getD i (0, 0)).2 * s)) ∧
    (wedge_points_aux c s l k).1.getD (4 * i + 2) (0, 0, 0)
        = ((l.getD i (0, 0)).1, 0, 0) ∧
    (wedge_points_aux c s l k).1.getD (4 * i + 3) (0, 0, 0)
        = ((l.getD i (0, 0)).1, (l.getD i (0, 0)).2 * c,
            (l.getD i (0, 0)).2 * s) := by
  induction l generalizing k i with
  | nil => simp at hi
  | cons q rest ih =>
    obtain ⟨xi, ri⟩ := q
    match i with
    | 0 => simp [wedge_points_aux]
    | (j + 1) =>
      have hj : j < rest.length := by
        simp only [List.length_cons] at hi
        omega
      obtain ⟨h1, h2, h3, h4⟩ := ih (k + 4) j hj
      have e0 : 4 * (j + 1) = 4 * j + 3 + 1 := by ring
      have e1 : 4 * (j + 1) + 1 = 4 * j + 1 + 3 + 1 := by ring
      have e2 : 4 * (j + 1) + 2 = 4 * j + 2 + 3 + 1 := by ring
      have e3 : 4 * (j + 1) + 3 = 4 * j + 3 + 3 + 1 := by ring
      refine ⟨?_, ?_, ?_, ?_⟩
      · rw [e0]
        simp only [wedge_points_aux, List.getD_cons_succ]
        exact h1
      · rw [e1]
        simp only [wedge_points_aux, List.getD_cons_succ]
        exact h2
      · rw [e2]
        simp only [wedge_points_aux, List.getD_cons_succ]
        exact h3
      · rw [e3]
        simp only [wedge_points_aux, List.getD_cons_succ]
        exact h4

/-- `NozzleSection.generate_points` from `nozzle.py`: sample
`linspace(start_x, end_x, n_points)` and apply the section's radius
function. -/
noncomputable def generate_points (sp : SectionParameters) (r_func : ℝ → ℝ) :
    List ℝ × List ℝ :=
  let x := linspace sp.start_x sp.end_x sp.n_points
  (x, x.map r_func)

/-- C7: with `convergent_power = divergent_power = 1` the two parabolic
branches of `ParabolicNozzle.generate_contour` coincide, at every axial
position (in particular at every sampled one), with the closed-form
`LinearSection` radius functions from `(-L_convergent, chamber_radius)`
to `(0, throat_radius)` and from `(0, throat_radius)` to
`(L_divergent, exit_radius)`. -/
theorem powers_one_linear (p : ParabolicNozzleParams)
    (hcp : p.convergent_power = 1) (hdp : p.divergent_power = 1)
    (hch : 0 < p.chamber_radius) (hte : p.throat_radius < p.exit_radius) :
    (∀ x : ℝ, convergent_radius p x =
      linear_radius ⟨-(L_convergent p), 0, p.chamber_radius, p.throat_radius, 0⟩ x) ∧
    (∀ x : ℝ, divergent_radius p x =
      linear_radius ⟨0, L_divergent p, p.throat_radius, p.exit_radius, 0⟩ x) := by
  have hL : L_convergent p ≠ 0 := ne_of_gt (L_convergent_pos p hch)
  have hLd : L_divergent p ≠ 0 := ne_of_gt (L_divergent_pos p hte)
  constructor
  · intro x
    simp only [convergent_radius, linear_radius, hcp, Real.rpow_one]
    field_simp
    ring
  · intro x
    simp only [divergent_radius, linear_radius, hdp, Real.rpow_one]
    field_simp

/-- Witness for C7 at the concrete parameter set
`throat=1, exit=2, chamber=2, powers=1`. -/
theorem powers_one_linear_witness :
    (ParabolicNozzleParams.mk 1 2 2 1 1).convergent_power = 1 ∧
    (ParabolicNozzleParams.mk 1 2 2 1 1).divergent_power = 1 ∧
    0 < (ParabolicNozzleParams.mk 1 2 2 1 1).chamber_radius ∧
    (ParabolicNozzleParams.mk 1 2 2 1 1).throat_radius
      < (ParabolicNozzleParams.mk 1 2 2 1 1).exit_radius ∧
    ((∀ x : ℝ, convergent_radius (ParabolicNozzleParams.mk 1 2 2 1 1) x =
        linear_radius ⟨-(L_convergent (ParabolicNozzleParams.mk 1 2 2 1 1)), 0,
          (ParabolicNozzleParams.mk 1 2 2 1 1).chamber_radius,
          (ParabolicNozzleParams.mk 1 2 2 1 1).throat_radius, 0⟩ x) ∧
      (∀ x : ℝ, divergent_radius (ParabolicNozzleParams.mk 1 2 2 1 1) x =
        linear_radius ⟨0, L_divergent (ParabolicNozzleParams.mk 1 2 2 1 1),
          (ParabolicNozzleParams.mk 1 2 2 1 1).throat_radius,
          (ParabolicNozzleParams.mk 1 2 2 1 1).exit_radius, 0⟩ x)) :=
  ⟨rfl, rfl, by norm_num, by norm_num,
    powers_one_linear (ParabolicNozzleParams.mk 1 2 2 1 1) rfl rfl
      (by norm_num) (by norm_num)⟩

/-- C4 (amended): for a circular-arc section with distinct endpoints and
radius of curvature at least half the chord, the radius function
reproduces `start_r` at `start_x` and `end_r` at `end_x` exactly.  (The
curve between the endpoints is linear interpolation plus a symmetric
bulge term, not in general a circle of radius `R_c`; see the
counterexample.) -/
theorem circular_arc_endpoints (sp : SectionParameters) (R_c : ℝ)
    (convex : Bool) (hne : sp.start_x ≠ sp.end_x)
    (hR : Real.sqrt ((sp.end_x - sp.start_x) ^ 2 + (sp.end_r - sp.start_r) ^ 2) / 2
      ≤ R_c) :
    circular_arc_radius sp R_c convex sp.start_x = sp.start_r ∧
    circular_arc_radius sp R_c convex sp.end_x = sp.end_r := by
  have hdx : sp.end_x - sp.start_x ≠ 0 := sub_ne_zero.mpr (Ne.symm hne)
  constructor
  · simp only [circular_arc_radius]
    rw [sub_self, zero_div]
    ring_nf
  · simp only [circular_arc_radius]
    rw [div_self hdx]
    ring_nf

/-- Witness for C4 (amended) at the concrete arc from `(0,0)` to `(1,1)`
with radius of curvature `1 ≥ chord/2 = √2/2`. -/
theorem circular_arc_endpoints_witness :
    (SectionParameters.mk 0 1 0 1 3).start_x ≠ (SectionParameters.mk 0 1 0 1 3).end_x ∧
    Real.sqrt (((SectionParameters.mk 0 1 0 1 3).end_x
        - (SectionParameters.mk 0 1 0 1 3).start_x) ^ 2
      + ((SectionParameters.mk 0 1 0 1 3).end_r
        - (SectionParameters.mk 0 1 0 1 3).start_r) ^ 2) / 2 ≤ 1 ∧
    (circular_arc_radius (SectionParameters.mk 0 1 0 1 3) 1 true
        (SectionParameters.mk 0 1 0 1 3).start_x
      = (SectionParameters.mk 0 1 0 1 3).start_r ∧
    circular_arc_radius (SectionParameters.mk 0 1 0 1 3) 1 true
        (SectionParameters.mk 0 1 0 1 3).end_x
      = (SectionParameters.mk 0 1 0 1 3).end_r) := by
  have hchord : Real.sqrt (((SectionParameters.mk 0 1 0 1 3).end_x
        - (SectionParameters.mk 0 1 0 1 3).start_x) ^ 2
      + ((SectionParameters.mk 0 1 0 1 3).end_r
        - (SectionParameters.mk 0 1 0 1 3).start_r) ^ 2) / 2 ≤ 1 := by
    have h2 : Real.sqrt 2 ≤ 2 := by
      nlinarith [Real.sq_sqrt (by norm_num : (0:ℝ) ≤ 2), Real.sqrt_nonneg (2:ℝ)]
    have harg : ((SectionParameters.mk 0 1 0 1 3).end_x
        - (SectionParameters.mk 0 1 0 1 3).start_x) ^ 2
      + ((SectionParameters.mk 0 1 0 1 3).end_r
        - (SectionParameters.mk 0 1 0 1 3).start_r) ^ 2 = (2:ℝ) := by norm_num
    rw [harg]
    linarith
  exact ⟨by norm_num, hchord,
    circular_arc_endpoints (SectionParameters.mk 0 1 0 1 3) 1 true
      (by norm_num) hchord⟩

/-- C4 (counterexample): for the concrete convex arc section from
`(0,0)` to `(1,1)` with radius of curvature `R_c = 1 ≥ chord/2`, the
middle of the three sampled points of `generate_points` is
`(1/2, r(1/2))`, and that point lies on no circle of radius 1 through
the two endpoints — so the claim that every sampled point lies on a true
circular arc of radius `R_c` through the endpoints is false: the
function is linear interpolation plus a bulge. -/
theorem circular_arc_midpoint_off_circle :
    (generate_points (SectionParameters.mk 0 1 0 1 3)
        (circular_arc_radius (SectionParameters.mk 0 1 0 1 3) 1 true)).1.getD 1 0
      = 1 / 2 ∧
    (generate_points (SectionParameters.mk 0 1 0 1 3)
        (circular_arc_radius (SectionParameters.mk 0 1 0 1 3) 1 true)).2.getD 1 0
      = circular_arc_radius (SectionParameters.mk 0 1 0 1 3) 1 true (1 / 2) ∧
    ¬ ∃ cx cy : ℝ,
        (0 - cx) ^ 2 + (0 - cy) ^ 2 = 1 ^ 2 ∧
        (1 - cx) ^ 2 + (1 - cy) ^ 2 = 1 ^ 2 ∧
        (1 / 2 - cx) ^ 2
          + (circular_arc_radius (SectionParameters.mk 0 1 0 1 3) 1 true (1 / 2)
            - cy) ^ 2 = 1 ^ 2 := by
  have h3 : List.range 3 = [0, 1, 2] := by decide
  have hx : linspace (0:ℝ) 1 3 = [0, 1/2, 1] := by
    simp [linspace, h3]
  have hy : circular_arc_radius (SectionParameters.mk 0 1 0 1 3) 1 true (1/2)
      = 3/2 - Real.sqrt (3/4) := by
    simp only [circular_arc_radius]
    norm_num [Real.sqrt_one]
  refine ⟨?_, ?_, ?_⟩
  · simp [generate_points, hx]
  · simp [generate_points, hx]
  · rintro ⟨cx, cy, h1, h2, hmid⟩
    rw [hy] at hmid
    have hs : Real.sqrt (3/4) ^ 2 = 3/4 := Real.sq_sqrt (by norm_num)
    have hsum : cx + cy = 1 := by nlinarith [h1, h2]
    have hcx : cx * (cx - 1) = 0 := by nlinarith [h1, hsum]
    rcases mul_eq_zero.mp hcx with hc | hc
    · have hcy1 : cy = 1 := by rw [hc] at hsum; linarith
      rw [hc, hcy1] at hmid
      nlinarith [hs, Real.sqrt_nonneg (3/4 : ℝ)]
    · have hcx1 : cx = 1 := by linarith [sub_eq_zero.mp hc]
      have hcy0 : cy = 0 := by rw [hcx1] at hsum; linarith
      rw [hcx1, hcy0] at hmid
      nlinarith [hs, Real.sqrt_nonneg (3/4 : ℝ)]

/-- C8: the Hermite section radius function reproduces `start_r` at
`x = start_x` (`t = 0`) and `end_r` at `x = end_x` (`t = 1`) exactly,
and its derivative `dr/dx` at those two points equals `start_slope` and
`end_slope` respectively. -/
theorem hermite_endpoint_values_slopes (sp : SectionParameters)
    (start_slope end_slope : ℝ) (h : sp.start_x < sp.end_x) :
    hermite_radius sp start_slope end_slope sp.start_x = sp.start_r ∧
    hermite_radius sp start_slope end_slope sp.end_x = sp.end_r ∧
    HasDerivAt (hermite_radius sp start_slope end_slope) start_slope sp.start_x ∧
    HasDerivAt (hermite_radius sp start_slope end_slope) end_slope sp.end_x := by
  have hdx : sp.end_x - sp.start_x ≠ 0 := ne_of_gt (sub_pos.mpr h)
  have ht : ∀ y : ℝ, HasDerivAt
      (fun z : ℝ => (z - sp.start_x) / (sp.end_x - sp.start_x))
      (1 / (sp.end_x - sp.start_x)) y := by
    intro y
    exact ((hasDerivAt_id y).sub_const sp.start_x).div_const (sp.end_x - sp.start_x)
  refine ⟨?_, ?_, ?_, ?_⟩
  · simp only [hermite_radius]
    rw [sub_self, zero_div]
    norm_num
  · simp only [hermite_radius]
    rw [div_self hdx]
    norm_num
  · have hD := ((((((ht sp.start_x).pow 3).const_mul (2:ℝ)).sub
        (((ht sp.start_x).pow 2).const_mul 3)).add_const 1).mul_const
          sp.start_r).add
      (((((((ht sp.start_x).pow 3).sub
        (((ht sp.start_x).pow 2).const_mul 2)).add (ht sp.start_x)).mul_const
          (sp.end_x - sp.start_x)).mul_const start_slope)) |>.add
      (((((ht sp.start_x).pow 3).const_mul (-2)).add
        (((ht sp.start_x).pow 2).const_mul 3)).mul_const sp.end_r) |>.add
      (((((ht sp.start_x).pow 3).sub ((ht sp.start_x).pow 2)).mul_const
        (sp.end_x - sp.start_x)).mul_const end_slope)
    refine HasDerivAt.congr_deriv hD ?_
    rw [sub_self, zero_div]
    norm_num
    field_simp
  · have hD := ((((((ht sp.end_x).pow 3).const_mul (2:ℝ)).sub
        (((ht sp.end_x).pow 2).const_mul 3)).add_const 1).mul_const
          sp.start_r).add
      (((((((ht sp.end_x).pow 3).sub
        (((ht sp.end_x).pow 2).const_mul 2)).add (ht sp.end_x)).mul_const
          (sp.end_x - sp.start_x)).mul_const start_slope)) |>.add
      (((((ht sp.end_x).pow 3).const_mul (-2)).add
        (((ht sp.end_x).pow 2).const_mul 3)).mul_const sp.end_r) |>.add
      (((((ht sp.end_x).pow 3).sub ((ht sp.end_x).pow 2)).mul_const
        (sp.end_x - sp.start_x)).mul_const end_slope)
    refine HasDerivAt.congr_deriv hD ?_
    rw [div_self hdx]
    norm_num
    field_simp
    ring

/-- Witness for C8 at the concrete Hermite section from `(0,0)` to
`(1,1)` with slopes `2` and `3`. -/
theorem hermite_endpoint_values_slopes_witness :
    (SectionParameters.mk 0 1 0 1 50).start_x
      < (SectionParameters.mk 0 1 0 1 50).end_x ∧
    (hermite_radius (SectionParameters.mk 0 1 0 1 50) 2 3
        (SectionParameters.mk 0 1 0 1 50).start_x
      = (SectionParameters.mk 0 1 0 1 50).start_r ∧
    hermite_radius (SectionParameters.mk 0 1 0 1 50) 2 3
        (SectionParameters.mk 0 1 0 1 50).end_x
      = (SectionParameters.mk 0 1 0 1 50).end_r ∧
    HasDerivAt (hermite_radius (SectionParameters.mk 0 1 0 1 50) 2 3) 2
        (SectionParameters.mk 0 1 0 1 50).start_x ∧
    HasDerivAt (hermite_radius (SectionParameters.mk 0 1 0 1 50) 2 3) 3
        (SectionParameters.mk 0 1 0 1 50).end_x) :=
  ⟨by norm_num,
    hermite_endpoint_values_slopes (SectionParameters.mk 0 1 0 1 50) 2 3
      (by norm_num)⟩

theorem mem_linspace_tail_pos (b : ℝ) (n : ℕ) (hb : 0 < b) (hn : 2 ≤ n) :
    ∀ y ∈ (linspace 0 b n).tail, 0 < y := by
  intro y hy
  rcases n with _ | _ | m
  · omega
  · omega
  · rw [linspace, List.range_succ_eq_map, List.map_cons, List.tail_cons,
      List.map_map] at hy
    simp only [List.mem_map, List.mem_range, Function.comp] at hy
    obtain ⟨j, hj, rfl⟩ := hy
    have hden : ((m + 2 - 1 : ℕ) : ℝ) = (m : ℝ) + 1 := by push_cast; ring
    have hstep : 0 < (b - 0) / ((m + 2 - 1 : ℕ) : ℝ) := by
      rw [hden]; apply div_pos (by linarith) (by positivity)
    have hjp : (0 : ℝ) < ((Nat.succ j : ℕ) : ℝ) := by
      exact_mod_cast Nat.succ_pos j
    nlinarith [mul_pos hjp hstep]

theorem convergent_radius_ge_throat (p : ParabolicNozzleParams) (x : ℝ)
    (htc : p.throat_radius < p.chamber_radius) (hch : 0 < p.chamber_radius)
    (hcp : 0 < p.convergent_power)
    (hx1 : -(L_convergent p) ≤ x) (hx2 : x ≤ 0) :
    p.throat_radius ≤ convergent_radius p x := by
  have hL : 0 < L_convergent p := L_convergent_pos p hch
  have ht0 : 0 ≤ (x + L_convergent p) / L_convergent p :=
    div_nonneg (by linarith) hL.le
  have ht1 : (x + L_convergent p) / L_convergent p ≤ 1 := by
    rw [div_le_one hL]; linarith
  have key : ((x + L_convergent p) / L_convergent p) ^ p.convergent_power ≤ 1 :=
    Real.rpow_le_one ht0 ht1 hcp.le
  have key0 : 0 ≤ ((x + L_convergent p) / L_convergent p) ^ p.convergent_power :=
    Real.rpow_nonneg ht0 _
  unfold convergent_radius
  nlinarith [mul_nonneg (sub_nonneg.mpr htc.le) (sub_nonneg.mpr key)]

theorem divergent_radius_ge_throat (p : ParabolicNozzleParams) (x : ℝ)
    (hte : p.throat_radius < p.exit_radius) (hx : 0 ≤ x) :
    p.throat_radius ≤ divergent_radius p x := by
  have h0 : 0 ≤ (x / L_divergent p) ^ p.divergent_power :=
    Real.rpow_nonneg (div_nonneg hx (L_divergent_pos p hte).le) _
  unfold divergent_radius
  nlinarith [mul_nonneg (sub_nonneg.mpr hte.le) h0]

/-- C3: for valid parameters (`0 < throat < exit`, `throat < chamber`,
positive shape powers) and any `n_points ≥ 2`, `generate_contour`
returns two equal-length lists, the axial positions are strictly
increasing (in particular there is no duplicate at the
convergent/divergent seam), and every radius is non-negative. -/
theorem generate_contour_wellFormed (p : ParabolicNozzleParams) (n : ℕ)
    (hth : 0 < p.throat_radius) (hte : p.throat_radius < p.exit_radius)
    (htc : p.throat_radius < p.chamber_radius)
    (hcp : 0 < p.convergent_power) (hdp : 0 < p.divergent_power)
    (hn : 2 ≤ n) :
    (generate_contour p n).1.length = (generate_contour p n).2.length ∧
    (generate_contour p n).1.Pairwise (· < ·) ∧
    ∀ ri ∈ (generate_contour p n).2, 0 ≤ ri := by
  have hch : 0 < p.chamber_radius := lt_trans hth htc
  have hL : 0 < L_convergent p := L_convergent_pos p hch
  have hLd : 0 < L_divergent p := L_divergent_pos p hte
  have hnd : 2 ≤ n - n_conv n := n_div_ge_two n hn
  refine ⟨?_, ?_, ?_⟩
  · simp [generate_contour, convergent_section, divergent_section,
      length_linspace, linspace]
  · simp only [generate_contour, convergent_section, divergent_section]
    rw [List.pairwise_append]
    refine ⟨linspace_pairwise _ _ _ (by linarith),
      List.Pairwise.sublist (List.tail_sublist _)
        (linspace_pairwise 0 (L_divergent p) _ hLd), ?_⟩
    intro a ha b hb
    have hab := mem_linspace_bounds (-(L_convergent p)) 0 _ (by linarith) a ha
    have hbpos := mem_linspace_tail_pos (L_divergent p) (n - n_conv n) hLd hnd b hb
    linarith [hab.2]
  · intro ri hri
    simp only [generate_contour, convergent_section, divergent_section,
      List.mem_append] at hri
    rcases hri with hri | hri
    · simp only [List.mem_map] at hri
      obtain ⟨xi, hxi, rfl⟩ := hri
      have hb := mem_linspace_bounds (-(L_convergent p)) 0 _ (by linarith) xi hxi
      have := convergent_radius_ge_throat p xi htc hch hcp hb.1 hb.2
      linarith
    · rw [← List.map_tail] at hri
      simp only [List.mem_map] at hri
      obtain ⟨xi, hxi, rfl⟩ := hri
      have hxi' := List.mem_of_mem_tail hxi
      have hb := mem_linspace_bounds 0 (L_divergent p) _ hLd.le xi hxi'
      have := divergent_radius_ge_throat p xi hte hb.1
      linarith

/-- Witness for C3 at `throat=1, exit=2, chamber=2, powers=1, n_points=5`. -/
theorem generate_contour_wellFormed_witness :
    0 < (ParabolicNozzleParams.mk 1 2 2 1 1).throat_radius ∧
    (ParabolicNozzleParams.mk 1 2 2 1 1).throat_radius
      < (ParabolicNozzleParams.mk 1 2 2 1 1).exit_radius ∧
    (ParabolicNozzleParams.mk 1 2 2 1 1).throat_radius
      < (ParabolicNozzleParams.mk 1 2 2 1 1).chamber_radius ∧
    0 < (ParabolicNozzleParams.mk 1 2 2 1 1).convergent_power ∧
    0 < (ParabolicNozzleParams.mk 1 2 2 1 1).divergent_power ∧
    2 ≤ 5 ∧
    ((generate_contour (ParabolicNozzleParams.mk 1 2 2 1 1) 5).1.length
        = (generate_contour (ParabolicNozzleParams.mk 1 2 2 1 1) 5).2.length ∧
      (generate_contour (ParabolicNozzleParams.mk 1 2 2 1 1) 5).1.Pairwise (· < ·) ∧
      ∀ ri ∈ (generate_contour (ParabolicNozzleParams.mk 1 2 2 1 1) 5).2, 0 ≤ ri) :=
  ⟨by norm_num, by norm_num, by norm_num, by norm_num, by norm_num, by norm_num,
    generate_contour_wellFormed (ParabolicNozzleParams.mk 1 2 2 1 1) 5
      (by norm_num) (by norm_num) (by norm_num) (by norm_num) (by norm_num)
      (by norm_num)⟩

/-- C9: for every axial segment `i`, substituting each plane-0 vertex
index of the emitted wedge0 face by its plane-1 counterpart
(`plane_swap`) and reversing the vertex order yields the emitted wedge1
face as the same oriented cycle (a rotation of it): the two
symmetry-plane faces have mirror-image winding orders.  These are
exactly the faces `generate_block_mesh_dict` emits per segment. -/
theorem wedge_faces_mirror (x r : List ℝ) (th : ℝ) (i : ℕ)
    (hi : i + 1 < (x.zip r).length) :
    plane_swap ((wp_a0 x r th).getD i 0) = (wp_a1 x r th).getD i 0 ∧
    plane_swap ((wp_w0 x r th).getD i 0) = (wp_w1 x r th).getD i 0 ∧
    plane_swap ((wp_a0 x r th).getD (i + 1) 0) = (wp_a1 x r th).getD (i + 1) 0 ∧
    plane_swap ((wp_w0 x r th).getD (i + 1) 0) = (wp_w1 x r th).getD (i + 1) 0 ∧
    (((wedge0_face x r th i).map plane_swap).reverse).IsRotated
      (wedge1_face x r th i) := by
  have hii : i < (x.zip r).length := by omega
  obtain ⟨h1a, h1b, h1c, h1d⟩ :=
    wedge_points_aux_idx (Real.cos th) (Real.sin th) (x.zip r) 0 i hii
  obtain ⟨h2a, h2b, h2c, h2d⟩ :=
    wedge_points_aux_idx (Real.cos th) (Real.sin th) (x.zip r) 0 (i + 1) hi
  refine ⟨?_, ?_, ?_, ?_, ?_⟩
  · simp only [wp_a0, wp_a1, wedge_points, plane_swap, h1a, h1c]
  · simp only [wp_w0, wp_w1, wedge_points, plane_swap, h1b, h1d]
  · simp only [wp_a0, wp_a1, wedge_points, plane_swap, h2a, h2c]
  · simp only [wp_w0, wp_w1, wedge_points, plane_swap, h2b, h2d]
  · refine ⟨2, ?_⟩
    simp only [wedge0_face, wedge1_face, wp_a0, wp_w0, wp_a1, wp_w1,
      wedge_points, h1a, h1b, h1c, h1d, h2a, h2b, h2c, h2d, plane_swap,
      List.map_cons, List.map_nil, List.reverse_cons, List.reverse_nil,
      List.nil_append, List.cons_append, List.rotate_cons_succ,
      List.rotate_zero, List.singleton_append]

/-- Witness for C9 at the two-station contour `x = [0, 1]`, `r = [1, 1]`,
`theta_half = 0`, segment `i = 0`. -/
theorem wedge_faces_mirror_witness :
    0 + 1 < (([0, 1] : List ℝ).zip ([1, 1] : List ℝ)).length ∧
    (plane_swap ((wp_a0 [0, 1] [1, 1] 0).getD 0 0) = (wp_a1 [0, 1] [1, 1] 0).getD 0 0 ∧
    plane_swap ((wp_w0 [0, 1] [1, 1] 0).getD 0 0) = (wp_w1 [0, 1] [1, 1] 0).getD 0 0 ∧
    plane_swap ((wp_a0 [0, 1] [1, 1] 0).getD (0 + 1) 0)
      = (wp_a1 [0, 1] [1, 1] 0).getD (0 + 1) 0 ∧
    plane_swap ((wp_w0 [0, 1] [1, 1] 0).getD (0 + 1) 0)
      = (wp_w1 [0, 1] [1, 1] 0).getD (0 + 1) 0 ∧
    (((wedge0_face [0, 1] [1, 1] 0 0).map plane_swap).reverse).IsRotated
      (wedge1_face [0, 1] [1, 1] 0 0)) :=
  ⟨by simp [List.length_zip], wedge_faces_mirror [0, 1] [1, 1] 0 0
    (by simp [List.length_zip])⟩

/-- C10 (amended): at every station `i` whose radius is positive, and
for a wedge half-angle with `sin theta_half ≠ 0`, `_wedge_points` stores
4 vertices of which exactly the two axis vertices coincide (3 distinct
coordinates), and the indices recorded for the station in all four index
arrays are in range of the vertex list.  (For a degenerate station with
`r = 0`, or `sin theta_half = 0`, more than one pair coincides; see the
counterexample.) -/
theorem wedge_points_station_distinct (x r : List ℝ) (th : ℝ) (i : ℕ)
    (hi : i < (x.zip r).length) (hs : Real.sin th ≠ 0)
    (hr : 0 < ((x.zip r).getD i (0, 0)).2) :
    (wp_verts x r th).getD (4 * i) (0, 0, 0)
      = (wp_verts x r th).getD (4 * i + 2) (0, 0, 0) ∧
    (wp_verts x r th).getD (4 * i) (0, 0, 0)
      ≠ (wp_verts x r th).getD (4 * i + 1) (0, 0, 0) ∧
    (wp_verts x r th).getD (4 * i) (0, 0, 0)
      ≠ (wp_verts x r th).getD (4 * i + 3) (0, 0, 0) ∧
    (wp_verts x r th).getD (4 * i + 1) (0, 0, 0)
      ≠ (wp_verts x r th).getD (4 * i + 3) (0, 0, 0) ∧
    (wp_a0 x r th).getD i 0 < (wp_verts x r th).length ∧
    (wp_w0 x r th).getD i 0 < (wp_verts x r th).length ∧
    (wp_a1 x r th).getD i 0 < (wp_verts x r th).length ∧
    (wp_w1 x r th).getD i 0 < (wp_verts x r th).length := by
  obtain ⟨hv0, hv1, hv2, hv3⟩ :=
    wedge_points_aux_verts_getD (Real.cos th) (Real.sin th) (x.zip r) 0 i hi
  obtain ⟨ha0, hw0, ha1, hw1⟩ :=
    wedge_points_aux_idx (Real.cos th) (Real.sin th) (x.zip r) 0 i hi
  have hlen := wedge_points_aux_verts_length (Real.cos th) (Real.sin th)
    (x.zip r) 0
  have hrs : ((x.zip r).getD i (0, 0)).2 * Real.sin th ≠ 0 :=
    mul_ne_zero (ne_of_gt hr) hs
  simp only [wp_verts, wp_a0, wp_w0, wp_a1, wp_w1, wedge_points]
  refine ⟨by rw [hv0, hv2], ?_, ?_, ?_, ?_, ?_, ?_, ?_⟩
  · rw [hv0, hv1]
    intro heq
    simp only [Prod.mk.injEq] at heq
    exact hrs (by linarith [heq.2.2])
  · rw [hv0, hv3]
    intro heq
    simp only [Prod.mk.injEq] at heq
    exact hrs (by linarith [heq.2.2])
  · rw [hv1, hv3]
    intro heq
    simp only [Prod.mk.injEq] at heq
    exact hrs (by linarith [heq.2.2])
  · rw [ha0, hlen]; omega
  · rw [hw0, hlen]; omega
  · rw [ha1, hlen]; omega
  · rw [hw1, hlen]; omega

/-- Witness for C10 (amended) at the one-station contour `x = [0]`,
`r = [1]` with `theta_half = π/2`. -/
theorem wedge_points_station_distinct_witness :
    0 < (([0] : List ℝ).zip ([1] : List ℝ)).length ∧
    Real.sin (Real.pi / 2) ≠ 0 ∧
    0 < ((([0] : List ℝ).zip ([1] : List ℝ)).getD 0 (0, 0)).2 ∧
    ((wp_verts [0] [1] (Real.pi / 2)).getD (4 * 0) (0, 0, 0)
      = (wp_verts [0] [1] (Real.pi / 2)).getD (4 * 0 + 2) (0, 0, 0) ∧
    (wp_verts [0] [1] (Real.pi / 2)).getD (4 * 0) (0, 0, 0)
      ≠ (wp_verts [0] [1] (Real.pi / 2)).getD (4 * 0 + 1) (0, 0, 0) ∧
    (wp_verts [0] [1] (Real.pi / 2)).getD (4 * 0) (0, 0, 0)
      ≠ (wp_verts [0] [1] (Real.pi / 2)).getD (4 * 0 + 3) (0, 0, 0) ∧
    (wp_verts [0] [1] (Real.pi / 2)).getD (4 * 0 + 1) (0, 0, 0)
      ≠ (wp_verts [0] [1] (Real.pi / 2)).getD (4 * 0 + 3) (0, 0, 0) ∧
    (wp_a0 [0] [1] (Real.pi / 2)).getD 0 0
      < (wp_verts [0] [1] (Real.pi / 2)).length ∧
    (wp_w0 [0] [1] (Real.pi / 2)).getD 0 0
      < (wp_verts [0] [1] (Real.pi / 2)).length ∧
    (wp_a1 [0] [1] (Real.pi / 2)).getD 0 0
      < (wp_verts [0] [1] (Real.pi / 2)).length ∧
    (wp_w1 [0] [1] (Real.pi / 2)).getD 0 0
      < (wp_verts [0] [1] (Real.pi / 2)).length) :=
  ⟨by simp [List.length_zip], by rw [Real.sin_pi_div_two]; norm_num,
    by simp, wedge_points_station_distinct [0] [1] (Real.pi / 2) 0
      (by simp [List.length_zip]) (by rw [Real.sin_pi_div_two]; norm_num)
      (by simp)⟩

/-- C10 (counterexample): for the input contour `x = [0]`, `r = [1]`
with `theta_half = 0` (so `sin theta_half = 0`), the station's two wall
vertices also coincide: the station has two coincident pairs (only 2
distinct coordinates), so the claim that every input contour yields
exactly one coincident pair (3 distinct coordinates) per station is
false. -/
theorem wedge_points_theta_zero_two_pairs :
    (wp_verts [0] [1] 0).getD 0 (1, 1, 1) = (wp_verts [0] [1] 0).getD 2 (1, 1, 1) ∧
    (wp_verts [0] [1] 0).getD 1 (1, 1, 1) = (wp_verts [0] [1] 0).getD 3 (1, 1, 1) ∧
    (wp_verts [0] [1] 0).getD 0 (1, 1, 1) ≠ (wp_verts [0] [1] 0).getD 1 (1, 1, 1) := by
  have hzip : (([0] : List ℝ).zip ([1] : List ℝ)) = [((0:ℝ), (1:ℝ))] := by simp
  refine ⟨?_, ?_, ?_⟩ <;>
    simp [wp_verts, wedge_points, hzip, wedge_points_aux, Real.sin_zero,
      Real.cos_zero, Prod.ext_iff]

theorem linspace_one (a b : ℝ) : linspace a b 1 = [a] := by
  have h1 : List.range 1 = [0] := by decide
  simp [linspace, h1]

theorem head?_linspace (a b : ℝ) (m : ℕ) : (linspace a b (m + 1)).head? = some a := by
  rw [linspace, List.range_succ_eq_map, List.map_cons]
  simp

theorem convergent_radius_at_chamber_end (p : ParabolicNozzleParams)
    (hcp : p.convergent_power ≠ 0) :
    convergent_radius p (-(L_convergent p)) = p.chamber_radius := by
  unfold convergent_radius
  have h0 : -(L_convergent p) + L_convergent p = 0 := by ring
  rw [h0, zero_div, Real.zero_rpow hcp, mul_zero, sub_zero]

theorem convergent_radius_at_chamber_end_power_zero (p : ParabolicNozzleParams)
    (hcp : p.convergent_power = 0) :
    convergent_radius p (-(L_convergent p)) = p.throat_radius := by
  unfold convergent_radius
  have h0 : -(L_convergent p) + L_convergent p = 0 := by ring
  rw [h0, zero_div, hcp, Real.rpow_zero, mul_one]
  ring

/-- The end-to-end example parameter set of the spec scenario (also the
`__main__` example of `parabolic_nozzle.py`). -/
noncomputable def example_params : ParabolicNozzleParams :=
  ⟨0.05, 0.15, 0.075, 0.6, 0.8⟩

theorem generate_contour_head?_r (p : ParabolicNozzleParams) (n : ℕ)
    (hn : n_conv n = 40) :
    (generate_contour p n).2.head? = some (convergent_radius p (-(L_convergent p))) := by
  simp only [generate_contour, convergent_section, hn]
  rw [List.head?_append, List.head?_map]
  have h40 : (40 : ℕ) = 39 + 1 := by norm_num
  rw [h40, head?_linspace]
  rfl

/-- C1 (code evaluation at the failing input): for the end-to-end
scenario parameters and `n_points = 101`, `generate_contour` returns
100 points, not 101 (`n_conv = 40`, `n_div = 61`, and the first
divergent point is dropped without compensation), while the first radius
is `0.075` (the chamber radius) as the claim states. -/
theorem generate_contour_101_length :
    (generate_contour example_params 101).1.length = 100 ∧
    (generate_contour example_params 101).2.length = 100 ∧
    (generate_contour example_params 101).2.head? = some 0.075 := by
  have hnc : n_conv 101 = 40 := by norm_num [n_conv]
  refine ⟨?_, ?_, ?_⟩
  · simp [generate_contour, convergent_section, divergent_section,
      length_linspace, linspace, hnc]
  · simp [generate_contour, convergent_section, divergent_section,
      length_linspace, linspace, hnc]
  · rw [generate_contour_head?_r example_params 101 hnc,
      convergent_radius_at_chamber_end]
    · norm_num [example_params]
    · norm_num [example_params]

/-- C5 (code evaluation at the failing input): with
`convergent_power = 0` (a value `≤ 0`), `generate_contour` raises no
error: it returns a full 100-point contour whose first radius is the
throat radius `0.05` instead of the chamber radius `0.075`
(`t ** 0 = 1` collapses the convergent branch), silently. -/
theorem generate_contour_power_zero_silent :
    (generate_contour (ParabolicNozzleParams.mk 0.05 0.15 0.075 0 0.8) 101).1.length
      = 100 ∧
    (generate_contour (ParabolicNozzleParams.mk 0.05 0.15 0.075 0 0.8) 101).2.head?
      = some 0.05 ∧
    (ParabolicNozzleParams.mk 0.05 0.15 0.075 0 0.8).chamber_radius = 0.075 := by
  have hnc : n_conv 101 = 40 := by norm_num [n_conv]
  refine ⟨?_, ?_, by norm_num⟩
  · simp [generate_contour, convergent_section, divergent_section,
      length_linspace, linspace, hnc]
  · rw [generate_contour_head?_r (ParabolicNozzleParams.mk 0.05 0.15 0.075 0 0.8)
      101 hnc, convergent_radius_at_chamber_end_power_zero]
    norm_num

/-- C2 (code evaluation at the failing input): for `n_axial = 1` the
generated mesh has 4 vertices (one station), 0 blocks, 1 inlet face,
1 outlet face, and 0 wall/wedge0/wedge1 faces — not the claimed
`4*(n_axial+1) = 8` vertices, `n_axial = 1` block and `n_axial = 1`
wall/wedge faces, because `get_outer_wall(n_axial+1)` yields only
`n_axial` stations. -/
theorem block_mesh_n_axial_one_counts :
    (generate_block_mesh_dict example_params 5 1).map (fun m =>
      (m.vertices.length, m.blocks.length, m.inletFaces.length,
        m.outletFaces.length, m.wallFaces.length, m.wedge0Faces.length,
        m.wedge1Faces.length)) = some (4, 0, 1, 1, 0, 0, 0) := by
  have hx1 : (get_outer_wall example_params (1 + 1)).1.length = 1 := by
    simp [get_outer_wall, generate_contour, convergent_section,
      divergent_section, linspace, n_conv]
  have hr1 : (get_outer_wall example_params (1 + 1)).2.length = 1 := by
    simp [get_outer_wall, generate_contour, convergent_section,
      divergent_section, linspace, n_conv]
  simp only [generate_block_mesh_dict, hx1]
  norm_num
  simp [wp_verts, wedge_points, wedge_points_aux_verts_length,
    List.length_zip, hx1, hr1]

/-- C6 (code evaluation at the failing input): with
`throat_radius = exit_radius = 1` the divergent length is 0, so the
contour for `n_axial = 3` has stations `[-3, 0, 0]` — two adjacent
stations at the same axial position.  `generate_block_mesh_dict` raises
no error: it returns a mesh with 2 blocks in which the vertex quadruple
of station 1 (indices 4..7) coincides with that of station 2
(indices 8..11) — a zero-volume block presented as valid output. -/
theorem block_mesh_duplicate_station_emitted :
    ((generate_block_mesh_dict (ParabolicNozzleParams.mk 1 1 2 1 1) 5 3).map
      (fun m => m.blocks.length)) = some 2 ∧
    ((generate_block_mesh_dict (ParabolicNozzleParams.mk 1 1 2 1 1) 5 3).map
      (fun m => m.vertices.getD 4 (1, 1, 1))) =
    ((generate_block_mesh_dict (ParabolicNozzleParams.mk 1 1 2 1 1) 5 3).map
      (fun m => m.vertices.getD 8 (1, 1, 1))) ∧
    ((generate_block_mesh_dict (ParabolicNozzleParams.mk 1 1 2 1 1) 5 3).map
      (fun m => m.vertices.getD 5 (1, 1, 1))) =
    ((generate_block_mesh_dict (ParabolicNozzleParams.mk 1 1 2 1 1) 5 3).map
      (fun m => m.vertices.getD 9 (1, 1, 1))) ∧
    ((generate_block_mesh_dict (ParabolicNozzleParams.mk 1 1 2 1 1) 5 3).map
      (fun m => (m.vertices.getD 4 (1, 1, 1)).1)) = some 0 ∧
    ((generate_block_mesh_dict (ParabolicNozzleParams.mk 1 1 2 1 1) 5 3).map
      (fun m => (m.vertices.getD 8 (1, 1, 1)).1)) = some 0 := by
  have hLc : L_convergent (ParabolicNozzleParams.mk 1 1 2 1 1) = 3 := by
    unfold L_convergent; norm_num
  have hLd : L_divergent (ParabolicNozzleParams.mk 1 1 2 1 1) = 0 := by
    unfold L_divergent; norm_num
  have h3 : List.range 3 = [0, 1, 2] := by decide
  have hnc : n_conv (3 + 1) = 1 := by norm_num [n_conv]
  have hx : (get_outer_wall (ParabolicNozzleParams.mk 1 1 2 1 1) (3 + 1)).1
      = [-3, 0, 0] := by
    simp only [get_outer_wall, generate_contour, hnc, convergent_section,
      divergent_section]
    rw [linspace_one, hLc, hLd]
    norm_num [linspace, h3]
  have hr : (get_outer_wall (ParabolicNozzleParams.mk 1 1 2 1 1) (3 + 1)).2
      = [convergent_radius (ParabolicNozzleParams.mk 1 1 2 1 1) (-3),
         divergent_radius (ParabolicNozzleParams.mk 1 1 2 1 1) 0,
         divergent_radius (ParabolicNozzleParams.mk 1 1 2 1 1) 0] := by
    simp only [get_outer_wall, generate_contour, hnc, convergent_section,
      divergent_section]
    rw [linspace_one, hLc, hLd]
    norm_num [linspace, h3]
  refine ⟨?_, ?_, ?_, ?_, ?_⟩
  any_goals simp only [generate_block_mesh_dict, hx, hr]
  any_goals norm_num
  any_goals simp [wp_verts, wedge_points, wedge_points_aux]
